import Mathlib

/-!
# Verification of the openSODA2025 metric pipeline

Shallow embedding of the pure data-transformation core of the repository:

* `scripts/02_deep_analysis.py` — `analyze_multiple_metrics` (per-metric field
  production for delta metrics `stars`/`technical_fork` vs snapshot metrics);
* `scripts/03_final_analysis.py` — `clean_date` and `analyze_project_metrics`
  (date cleaning of series keys, per-project metric bundles);
* `scripts/04_expand_project_analysis.py` — `load_and_merge_data` (the merge of
  the three CSV sources and the re-ranking pass) and
  `enhanced_classify_project_type`;
* `github_new_trend/github_popular_projects_analyzer.py` — `get_stars_count`.

Python dictionaries are modelled as association lists in insertion order with
in-place overwrite; JSON numbers as `Rat`; a raised exception as `Except.error`.
-/

namespace OpenSoda

/-! ## Python dictionary primitives -/

/-- Python `d[k] = v` on a dict given as an association list in insertion
order: an existing key keeps its position and gets the new value, a new key is
appended at the end. -/
def dictInsert (d : List (String × Rat)) (k : String) (v : Rat) : List (String × Rat) :=
  if d.any (fun p => decide (p.1 = k)) then
    d.map (fun p => if p.1 = k then (k, v) else p)
  else d ++ [(k, v)]

/-- Python `d.get(k)` as an option. -/
def alookup (d : List (String × Rat)) (k : String) : Option Rat :=
  (d.find? (fun p => decide (p.1 = k))).map Prod.snd

/-- Python `d[k]` where the context guarantees the key is present
(total with default 0). -/
def pyVal (d : List (String × Rat)) (k : String) : Rat :=
  match d.find? (fun p => decide (p.1 = k)) with
  | some p => p.2
  | none => 0

/-- The items of one metric's JSON time-series object, in insertion order. -/
abbrev Series := List (String × Rat)

def seriesKeys (data : Series) : List String := data.map Prod.fst

def seriesSum (data : Series) : Rat := (data.map Prod.snd).sum

/-- Lexicographic comparison of character lists by code point: exactly the
order Python's `<=` puts on strings. -/
def lexLe : List Char → List Char → Bool
  | [], _ => true
  | _ :: _, [] => false
  | a :: as, b :: bs =>
    if a.toNat < b.toNat then true
    else if a.toNat = b.toNat then lexLe as bs
    else false

theorem lexLe_cons_iff {a b : Char} {as bs : List Char} :
    lexLe (a :: as) (b :: bs) = true ↔
      a.toNat < b.toNat ∨ (a.toNat = b.toNat ∧ lexLe as bs = true) := by
  simp only [lexLe]
  split_ifs with h1 h2 <;> simp [*]

theorem lexLe_total : ∀ x y : List Char, lexLe x y = true ∨ lexLe y x = true
  | [], _ => Or.inl rfl
  | _ :: _, [] => Or.inr rfl
  | a :: as, b :: bs => by
    rcases Nat.lt_trichotomy a.toNat b.toNat with h | h | h
    · exact Or.inl (lexLe_cons_iff.mpr (Or.inl h))
    · rcases lexLe_total as bs with ih | ih
      · exact Or.inl (lexLe_cons_iff.mpr (Or.inr ⟨h, ih⟩))
      · exact Or.inr (lexLe_cons_iff.mpr (Or.inr ⟨h.symm, ih⟩))
    · exact Or.inr (lexLe_cons_iff.mpr (Or.inl h))

theorem lexLe_trans : ∀ {x y z : List Char},
    lexLe x y = true → lexLe y z = true → lexLe x z = true
  | [], _, _, _, _ => rfl
  | _ :: _, [], _, hxy, _ => by simp [lexLe] at hxy
  | _ :: _, _ :: _, [], _, hyz => by simp [lexLe] at hyz
  | a :: as, b :: bs, c :: cs, hxy, hyz => by
    rcases lexLe_cons_iff.mp hxy with h1 | ⟨h1, h1r⟩ <;>
      rcases lexLe_cons_iff.mp hyz with h2 | ⟨h2, h2r⟩
    · exact lexLe_cons_iff.mpr (Or.inl (Nat.lt_trans h1 h2))
    · exact lexLe_cons_iff.mpr (Or.inl (h2 ▸ h1))
    · exact lexLe_cons_iff.mpr (Or.inl (h1 ▸ h2))
    · exact lexLe_cons_iff.mpr (Or.inr ⟨h1.trans h2, lexLe_trans h1r h2r⟩)

/-- Python string `<=`, as a kernel-computable code-point comparison. -/
def strLe (a b : String) : Prop := lexLe a.toList b.toList = true

instance : DecidableRel strLe :=
  fun a b => inferInstanceAs (Decidable (lexLe a.toList b.toList = true))

instance : IsTotal String strLe := ⟨fun a b => lexLe_total a.toList b.toList⟩

instance : IsTrans String strLe := ⟨fun _ _ _ hab hbc => lexLe_trans hab hbc⟩

/-- Python `sorted(keys)` / `dates.sort()`: lexicographic string sort. -/
def sortKeys (ks : List String) : List String := ks.insertionSort strLe

/-! ## `02_deep_analysis.py`, `analyze_multiple_metrics` (lines 134-168)

For `stars`/`technical_fork` the script sums all monthly values into the
`_latest` field (the cumulative total) and, with at least two dates, adds
`_first` and `_growth` computed from the raw monthly values at the
chronologically first and last dates.  For every other (snapshot) metric it
takes the value at the last date as `_latest` and, with at least two dates,
adds `_first` and `_growth`; nothing is ever summed. -/

/-- Fields produced for a delta metric (`stars`, `technical_fork`),
lines 136-151. -/
def deltaFields (metric : String) (data : Series) : List (String × Rat) :=
  if data = [] then []
  else
    let total_value := seriesSum data
    let dates := sortKeys (seriesKeys data)
    if 1 < dates.length then
      let first_value := pyVal data (dates.headD "")
      let last_value := pyVal data (dates.getLastD "")
      [(metric ++ "_latest", total_value),
       (metric ++ "_first", first_value),
       (metric ++ "_growth", last_value - first_value)]
    else
      [(metric ++ "_latest", total_value)]

/-- Fields produced for a snapshot metric (all other metrics),
lines 152-168. -/
def snapshotFields (metric : String) (data : Series) : List (String × Rat) :=
  if data = [] then []
  else
    let dates := sortKeys (seriesKeys data)
    let latest_value := pyVal data (dates.getLastD "")
    if 1 < dates.length then
      let first_value := pyVal data (dates.headD "")
      [(metric ++ "_latest", latest_value),
       (metric ++ "_first", first_value),
       (metric ++ "_growth", latest_value - first_value)]
    else
      [(metric ++ "_latest", latest_value)]

/-! ## `03_final_analysis.py`, `clean_date` and `analyze_project_metrics` -/

/-- Python `date_str.replace("-raw", "")`: remove every occurrence of
`-raw`, scanning left to right. -/
def stripRawChars : List Char → List Char
  | [] => []
  | '-' :: 'r' :: 'a' :: 'w' :: rest => stripRawChars rest
  | c :: rest => c :: stripRawChars rest

/-- Python `pat in s` (substring test). -/
def containsStr (s pat : String) : Bool :=
  decide (pat.toList <:+: s.toList)

/-- `clean_date` (lines 21-30).  The input here is always a JSON object key,
hence a string, so the `isinstance` guard is always taken.  Note that both the
`len == 7` branch and the fall-through return the (possibly stripped) string:
the format check does not affect the result. -/
def clean_date (date_str : String) : String :=
  let s := if containsStr date_str "-raw" then ⟨stripRawChars date_str.toList⟩ else date_str
  if s.length = 7 ∧ '-' ∈ s.toList then s else s

/-- One iteration of the cleaning loop (lines 67-70): assign
`cleaned_data[clean_date(k)] = v` whenever the cleaned key is a non-empty
(truthy) string. -/
def cleanStep (d : Series) (p : String × Rat) : Series :=
  let clean_dt := clean_date p.1
  if clean_dt = "" then d else dictInsert d clean_dt p.2

/-- Lines 66-70: build `cleaned_data` by iterating the series items in
order. -/
def cleanedSeries (data : Series) : Series :=
  data.foldl cleanStep []

/-- A value stored in a project's result record: numbers and date strings. -/
inductive FVal where
  | num (q : Rat)
  | str (s : String)
deriving DecidableEq

/-- Per-metric portion of `analyze_project_metrics` (lines 57-94): the fields
contributed to `results` by one metric file whose JSON object is `data`. -/
def analyzeMetricFields (metric : String) (data : Series) : List (String × FVal) :=
  if data = [] then []
  else
    let cleaned := cleanedSeries data
    if cleaned = [] then []
    else
      let sorted_dates := sortKeys (seriesKeys cleaned)
      let latest_date := sorted_dates.getLastD ""
      let latest_value := pyVal cleaned latest_date
      if 1 < sorted_dates.length then
        let first_date := sorted_dates.headD ""
        let first_value := pyVal cleaned first_date
        [(metric ++ "_latest", FVal.num latest_value),
         (metric ++ "_first", FVal.num first_value),
         (metric ++ "_growth", FVal.num (latest_value - first_value)),
         (metric ++ "_start_date", FVal.str first_date),
         (metric ++ "_end_date", FVal.str latest_date)]
      else
        [(metric ++ "_latest", FVal.num latest_value)]

/-- The concatenated field contributions of a project's metric files, in the
fixed `metric_files` iteration order; `none` stands for a missing file. -/
def metricsFields (ms : List (String × Option Series)) : List (String × FVal) :=
  ms.foldr
    (fun m acc =>
      (match m.2 with
       | some data => analyzeMetricFields m.1 data
       | none => []) ++ acc)
    []

/-- `analyze_project_metrics` (lines 32-96) on an in-memory project directory:
base identity fields plus every metric's fields; the project is kept only when
some metric contributed data (`len(results) > 3`). -/
def analyze_project_metrics (org proj : String) (ms : List (String × Option Series)) :
    Option (List (String × FVal)) :=
  let results :=
    [("org", FVal.str org), ("project", FVal.str proj),
     ("full_name", FVal.str (org ++ "/" ++ proj))] ++ metricsFields ms
  if 3 < results.length then some results else none

/-- The batch loop of `analyze_top_projects_across_orgs` (lines 129-137):
projects yielding `None` are skipped, all others are appended. -/
def analyzeBatch (projects : List (String × String × List (String × Option Series))) :
    List (List (String × FVal)) :=
  projects.filterMap (fun p => analyze_project_metrics p.1 p.2.1 p.2.2)

/-! ## `04_expand_project_analysis.py`, `load_and_merge_data` (lines 44-105)

The function reads three CSV sources and builds `extended_projects`:
every row of `complete_total_stars_ranking.csv` verbatim (tagged
`complete_ranking`), then every `top_100_projects.csv` row whose `full_name`
is not among the complete rows, with `openrank_latest` looked up in
`improved_project_analysis.csv` (first matching row) and replaced by the
marker `0.0` when absent, and `total_stars` taken from the row's `stars`
column (tagged `top100_only`).  Finally the set is partitioned by the mask
`openrank_latest > 0`, each part sorted descending (by `openrank_latest`
resp. `total_stars`), concatenated, and `rank` reassigned as `1..N`. -/

/-- A row of `complete_total_stars_ranking.csv`. -/
structure CompleteRow where
  rank : Int
  org : String
  project : String
  full_name : String
  total_stars : Rat
  monthly_stars_latest : Rat
  activity_latest : Rat
  openrank_latest : Rat
deriving DecidableEq

/-- A row of `top_100_projects.csv` (written by `01_explore_data.py`; it has
no openrank column at all). -/
structure Top100Row where
  organization : String
  project : String
  full_name : String
  stars : Rat
  activity : Rat
deriving DecidableEq

/-- The part of an `improved_project_analysis.csv` row the merge reads. -/
structure ImprovedRow where
  full_name : String
  openrank_latest : Rat
deriving DecidableEq

/-- An entry of `extended_projects`. -/
structure ExtRecord where
  rank : Int
  org : String
  project : String
  full_name : String
  total_stars : Rat
  monthly_stars_latest : Rat
  activity_latest : Rat
  openrank_latest : Rat
  source : String
deriving DecidableEq

/-- Lines 47-58: a complete-ranking row is copied field by field. -/
def completeToExt (r : CompleteRow) : ExtRecord :=
  { rank := r.rank, org := r.org, project := r.project, full_name := r.full_name,
    total_stars := r.total_stars, monthly_stars_latest := r.monthly_stars_latest,
    activity_latest := r.activity_latest, openrank_latest := r.openrank_latest,
    source := "complete_ranking" }

/-- Lines 70-78: find the first improved-analysis row with this `full_name`
and take its `openrank_latest`; when there is none the value stays `None` and
line 78 turns it into the missing-data marker `0.0`. -/
def lookupOpenrank (improved : List ImprovedRow) (fn : String) : Rat :=
  match improved.find? (fun m => decide (m.full_name = fn)) with
  | some m => m.openrank_latest
  | none => 0

/-- Lines 83-93: the record appended for a top100-only row. -/
def top100ToExt (improved : List ImprovedRow) (rank : Int) (r : Top100Row) : ExtRecord :=
  { rank := rank, org := r.organization, project := r.project, full_name := r.full_name,
    total_stars := r.stars, monthly_stars_latest := r.stars,
    activity_latest := r.activity,
    openrank_latest := lookupOpenrank improved r.full_name,
    source := "top100_only" }

/-- One iteration of the top100 loop (lines 64-93): skip a name already
present, otherwise append the new record with `rank = len(extended) + 1`. -/
def mergeLoopStep (improved : List ImprovedRow) (existing_names : List String)
    (acc : List ExtRecord) (r : Top100Row) : List ExtRecord :=
  if r.full_name ∈ existing_names then acc
  else acc ++ [top100ToExt improved ((acc.length : Int) + 1) r]

/-- Lines 44-93: build `extended_projects`.  `existing_names` is computed once
(line 61), before the loop, and never updated inside it. -/
def mergeStep (complete : List CompleteRow) (top100 : List Top100Row)
    (improved : List ImprovedRow) : List ExtRecord :=
  let base := complete.map completeToExt
  let existing_names := base.map ExtRecord.full_name
  top100.foldl (mergeLoopStep improved existing_names) base

/-- The boolean mask `extended_df['openrank_latest'] > 0` of line 99. -/
def hasOpenrank (p : ExtRecord) : Bool := decide (0 < p.openrank_latest)

/-- Descending order on `openrank_latest` (line 100). -/
def openrankDesc (a b : ExtRecord) : Prop := b.openrank_latest ≤ a.openrank_latest

/-- Descending order on `total_stars` (line 101). -/
def starsDesc (a b : ExtRecord) : Prop := b.total_stars ≤ a.total_stars

instance : DecidableRel openrankDesc :=
  fun a b => inferInstanceAs (Decidable (b.openrank_latest ≤ a.openrank_latest))

instance : DecidableRel starsDesc :=
  fun a b => inferInstanceAs (Decidable (b.total_stars ≤ a.total_stars))

/-- Line 100: the partition with openrank data, sorted by it, descending. -/
def dfWith (l : List ExtRecord) : List ExtRecord :=
  (l.filter hasOpenrank).insertionSort openrankDesc

/-- Line 101: the partition without openrank data, sorted by `total_stars`,
descending. -/
def dfWithout (l : List ExtRecord) : List ExtRecord :=
  (l.filter (fun p => !hasOpenrank p)).insertionSort starsDesc

/-- Line 105: `final_df['rank'] = range(1, len(final_df) + 1)`. -/
def assignRanks (l : List ExtRecord) : List ExtRecord :=
  l.enum.map (fun p => { p.2 with rank := (p.1 : Int) + 1 })

/-- Lines 98-105: the re-ranking pass over `extended_projects`. -/
def rankProjects (l : List ExtRecord) : List ExtRecord :=
  assignRanks (dfWith l ++ dfWithout l)

/-- The whole pure part of `load_and_merge_data`. -/
def load_and_merge_data (complete : List CompleteRow) (top100 : List Top100Row)
    (improved : List ImprovedRow) : List ExtRecord :=
  rankProjects (mergeStep complete top100 improved)

/-! ## `04_expand_project_analysis.py`, `enhanced_classify_project_type`
(lines 113-171) -/

/-- Python `str.lower()` (the project names involved are ASCII). -/
def pyLower (s : String) : String := ⟨s.toList.map Char.toLower⟩

/-- `any(keyword in name for keyword in kws)`. -/
def anyKeyword (n : String) (kws : List String) : Bool :=
  kws.any (fun kw => containsStr n kw)

def enhanced_classify_project_type (project_name : String) : String :=
  let n := pyLower project_name
  if anyKeyword n ["vscode", "studio", "ide", "editor", "debugger", "terminal", "jupyter"] then
    "开发工具"
  else if anyKeyword n ["typescript", "python", "go", "rust", "cpp", "cpython", "node",
      "electron", "java", "kotlin", "swift"] then
    "编程语言"
  else if anyKeyword n ["kubernetes", "docker", "container", "minikube", "orchestration"] then
    "容器编排"
  else if anyKeyword n ["pytorch", "tensorflow", "ai", "ml", "machine", "learning", "onnx",
      "tvm", "hudi"] then
    "人工智能"
  else if anyKeyword n ["react", "angular", "vue", "ui", "frontend", "ant-design", "fluentui",
      "material"] then
    "前端框架"
  else if anyKeyword n ["spring", "django", "flask", "express", "fastapi", "server", "backend",
      "framework"] then
    "后端框架"
  else if anyKeyword n ["spark", "flink", "hadoop", "kafka", "database", "sql", "nosql",
      "mongodb", "postgresql", "mysql", "superset", "doris", "arrow", "beam"] then
    "大数据/数据库"
  else if anyKeyword n ["aws", "azure", "gcp", "cloud", "wsl", "serverless", "api", "gateway",
      "apisix", "pulsar"] then
    "云平台/基础设施"
  else if anyKeyword n ["ci", "cd", "pipeline", "automation", "deployment", "devops", "jenkins",
      "gitlab", "github-actions"] then
    "DevOps/CI-CD"
  else if anyKeyword n ["powertoys", "utility", "tool", "cli", "command", "script", "automation",
      "cert", "practice", "winget"] then
    "实用工具"
  else if anyKeyword n ["docs", "documentation", "website", "blog", "guide", "tutorial"] then
    "文档/网站"
  else if anyKeyword n ["mobile", "ios", "android", "flutter", "react-native", "xamarin"] then
    "移动开发"
  else if anyKeyword n ["game", "unity", "unreal", "gaming", "3d"] then
    "游戏开发"
  else
    "其他"

/-- The classifier's ordered keyword groups, as the spec describes them: the
category together with its keyword list, in source order. -/
def keywordGroups : List (String × List String) :=
  [("开发工具", ["vscode", "studio", "ide", "editor", "debugger", "terminal", "jupyter"]),
   ("编程语言", ["typescript", "python", "go", "rust", "cpp", "cpython", "node", "electron",
      "java", "kotlin", "swift"]),
   ("容器编排", ["kubernetes", "docker", "container", "minikube", "orchestration"]),
   ("人工智能", ["pytorch", "tensorflow", "ai", "ml", "machine", "learning", "onnx", "tvm",
      "hudi"]),
   ("前端框架", ["react", "angular", "vue", "ui", "frontend", "ant-design", "fluentui",
      "material"]),
   ("后端框架", ["spring", "django", "flask", "express", "fastapi", "server", "backend",
      "framework"]),
   ("大数据/数据库", ["spark", "flink", "hadoop", "kafka", "database", "sql", "nosql",
      "mongodb", "postgresql", "mysql", "superset", "doris", "arrow", "beam"]),
   ("云平台/基础设施", ["aws", "azure", "gcp", "cloud", "wsl", "serverless", "api", "gateway",
      "apisix", "pulsar"]),
   ("DevOps/CI-CD", ["ci", "cd", "pipeline", "automation", "deployment", "devops", "jenkins",
      "gitlab", "github-actions"]),
   ("实用工具", ["powertoys", "utility", "tool", "cli", "command", "script", "automation",
      "cert", "practice", "winget"]),
   ("文档/网站", ["docs", "documentation", "website", "blog", "guide", "tutorial"]),
   ("移动开发", ["mobile", "ios", "android", "flutter", "react-native", "xamarin"]),
   ("游戏开发", ["game", "unity", "unreal", "gaming", "3d"])]

/-- The first group of `gs` whose keyword list has a match in `n`, else the
catch-all category. -/
def pickGroup (n : String) (gs : List (String × List String)) : String :=
  match gs.find? (fun g => anyKeyword n g.2) with
  | some g => g.1
  | none => "其他"

/-- The spec's formulation of the classifier: return the first keyword group
with a matching case-insensitive substring, else the catch-all category. -/
def classifySpec (project_name : String) : String :=
  pickGroup (pyLower project_name) keywordGroups

/-- The fixed taxonomy: the 13 keyword categories plus the catch-all. -/
def categoriesList : List String := keywordGroups.map Prod.fst ++ ["其他"]

/-! ## `github_popular_projects_analyzer.py`, `get_stars_count` (lines 20-34) -/

/-- A Python float: a finite value, or one of the special values on which
`int()` raises. -/
inductive PyFloat where
  | finite (q : Rat)
  | nan
  | inf
  | ninf
deriving DecidableEq

/-- The values `get_stars_count` can receive from parsed JSON. -/
inductive PyVal where
  | vnone
  | vstr (s : String)
  | vint (n : Int)
  | vfloat (f : PyFloat)
  | vother
deriving DecidableEq

/-- Python `s.replace(',', '')`. -/
def removeCommas (s : String) : String :=
  ⟨s.toList.filter (fun c => decide (c ≠ ','))⟩

/-- Python `s.isdigit()` restricted to ASCII digits.  (For a non-ASCII digit
Python's `isdigit` is true but the subsequent `int(s)` raises `ValueError`,
which the `except` clause turns into 0 — the same result this model gives.) -/
def pyIsdigit (s : String) : Bool :=
  decide (s.toList ≠ []) && s.toList.all (fun c => c.isDigit)

/-- The value of `int(s)` for a string of ASCII digits. -/
def digitsToNat (s : String) : Nat :=
  s.toList.foldl (fun n c => n * 10 + (c.toNat - '0'.toNat)) 0

/-- Python `int(f)` for a finite float: truncation toward zero. -/
def pyTrunc (q : Rat) : Int := if q < 0 then ⌈q⌉ else ⌊q⌋

/-- `get_stars_count` (lines 20-34).  The `try`/`except ValueError` protects
only the string branch; `int()` applied to a NaN or infinite float in the
`(int, float)` branch raises out of the method, modelled as `Except.error`. -/
def get_stars_count (stars : PyVal) : Except String Int :=
  match stars with
  | .vnone => .ok 0
  | .vstr s =>
      let s := removeCommas s
      if pyIsdigit s then .ok (digitsToNat s : Int) else .ok 0
  | .vint n => .ok n
  | .vfloat (.finite q) => .ok (pyTrunc q)
  | .vfloat .nan => .error "cannot convert float NaN to integer"
  | .vfloat .inf => .error "cannot convert float infinity to integer"
  | .vfloat .ninf => .error "cannot convert float infinity to integer"
  | .vother => .ok 0

/-! ## Claims -/

/-- A record with its `rank` column blanked: the merge assigns `rank` from the
running length of the accumulator and line 105 overwrites it afterwards, so
record contents are compared modulo this field. -/
def eraseRank (p : ExtRecord) : ExtRecord := { p with rank := 0 }

/-- C10, counterexample: `get_stars_count` is not total — Python's
`int()` applied to `float('nan')` raises a `ValueError` that the method's
`try`/`except` (which guards only the string branch) does not catch. -/
theorem get_stars_count_raises_on_nan :
    get_stars_count (PyVal.vfloat PyFloat.nan) =
      Except.error "cannot convert float NaN to integer" := rfl

/-- C10 (amended): `get_stars_count` returns an integer without raising for
every `None`, string, int, or finite-float input — `"12,345"` parses to
`12345`, non-numeric values yield an integer (0 or the int/truncated value) —
but a NaN or infinite float input raises. -/
theorem get_stars_count_total_on_supported (v : PyVal)
    (h : ∀ f, v = PyVal.vfloat f → ∃ q, f = PyFloat.finite q) :
    (∃ n : Int, get_stars_count v = Except.ok n)
  ∧ get_stars_count (PyVal.vstr "12,345") = Except.ok 12345
  ∧ (∀ n : Int, get_stars_count (PyVal.vint n) = Except.ok n)
  ∧ (∀ q : Rat, get_stars_count (PyVal.vfloat (PyFloat.finite q)) = Except.ok (pyTrunc q))
  ∧ get_stars_count PyVal.vnone = Except.ok 0 := by
  refine ⟨?_, rfl, fun n => rfl, fun q => rfl, rfl⟩
  cases v with
  | vnone => exact ⟨0, rfl⟩
  | vstr s =>
      by_cases hd : pyIsdigit (removeCommas s) = true
      · exact ⟨(digitsToNat (removeCommas s) : Int), by simp [get_stars_count, hd]⟩
      · exact ⟨0, by simp [get_stars_count, hd]⟩
  | vint n => exact ⟨n, rfl⟩
  | vfloat f =>
      obtain ⟨q, rfl⟩ := h f rfl
      exact ⟨pyTrunc q, rfl⟩
  | vother => exact ⟨0, rfl⟩

theorem get_stars_count_total_witness :
    (∃ n : Int, get_stars_count (PyVal.vstr "12,345") = Except.ok n)
  ∧ get_stars_count (PyVal.vstr "12,345") = Except.ok 12345
  ∧ (∀ n : Int, get_stars_count (PyVal.vint n) = Except.ok n)
  ∧ (∀ q : Rat, get_stars_count (PyVal.vfloat (PyFloat.finite q)) = Except.ok (pyTrunc q))
  ∧ get_stars_count PyVal.vnone = Except.ok 0 :=
  get_stars_count_total_on_supported (PyVal.vstr "12,345") (fun _ hf => nomatch hf)

/-- C2, counterexample: the merge *does* substitute `0.0` for a missing
openrank.  A top100-only row (whose source has no openrank column) with no
match in the improved-analysis data comes out with `openrank_latest = 0`
(line 78: `openrank_latest = 0.0  # 标记为缺失`) — the field is present and
zero, not absent. -/
theorem merge_substitutes_zero_for_missing_openrank :
    ((mergeStep [] [⟨"octo", "proj", "octo/proj", 500, 3⟩] []).map ExtRecord.openrank_latest
        = [0])
  ∧ ((mergeStep [] [⟨"octo", "proj", "octo/proj", 500, 3⟩] []).map ExtRecord.source
        = ["top100_only"]) :=
  ⟨rfl, rfl⟩

/-- C2 (amended): a missing openrank is represented by the sentinel value
`0.0`, not by an absent field; the ranking mask `openrank_latest > 0` then
treats exactly the sentinel (and any non-positive value) as missing, which is
how missing data is kept out of the primary ranking partition. -/
theorem missing_openrank_becomes_sentinel (improved : List ImprovedRow) (fn : String)
    (h : improved.find? (fun m => decide (m.full_name = fn)) = none) :
    lookupOpenrank improved fn = 0
  ∧ (∀ p : ExtRecord, p.openrank_latest = 0 → hasOpenrank p = false) := by
  constructor
  · unfold lookupOpenrank
    rw [h]
  · intro p hp
    simp [hasOpenrank, hp]

theorem missing_openrank_sentinel_witness :
    lookupOpenrank [] "octo/proj" = 0
  ∧ (∀ p : ExtRecord, p.openrank_latest = 0 → hasOpenrank p = false) :=
  missing_openrank_becomes_sentinel [] "octo/proj" rfl

/-- C6, counterexample: when a month appears both bare and with the `-raw`
suffix, it is not the non-raw value that wins: `cleaned_data` is written in
iteration order, so the later entry wins.  Here `"2023-01"` (value 5) comes
first and `"2023-01-raw"` (value 9) second, and the cleaned series maps
`"2023-01"` to the raw entry's 9, not to 5. -/
theorem raw_value_wins_when_raw_is_later :
    cleanedSeries [("2023-01", 5), ("2023-01-raw", 9)] = [("2023-01", 9)]
  ∧ clean_date "2023-01-raw" = "2023-01" :=
  ⟨rfl, rfl⟩

/-- C7, counterexample: provenance is not recorded per field.  The merged
record carries a single record-level `source` tag, and it is `"top100_only"`
both when the openrank value was found in the improved-analysis source
(first run, openrank 7.2) and when it was defaulted (second run): nothing in
the output says which source supplied `openrank_latest`. -/
theorem provenance_is_a_single_record_tag :
    ((mergeStep [] [⟨"octo", "proj", "octo/proj", 500, 3⟩] [⟨"octo/proj", 7.2⟩]).map
        (fun p => (p.total_stars, p.openrank_latest, p.source))
      = [(500, 7.2, "top100_only")])
  ∧ ((mergeStep [] [⟨"octo", "proj", "octo/proj", 500, 3⟩] []).map
        (fun p => (p.openrank_latest, p.source))
      = [(0, "top100_only")]) :=
  ⟨rfl, rfl⟩

/-- C8, counterexample: merging is not order-independent for every candidate
collection.  When the improved-analysis source holds two rows for the same
`full_name`, `match.iloc[0]` takes whichever comes first, so permuting that
source changes the merged record's openrank. -/
theorem merged_openrank_depends_on_candidate_order :
    List.Perm [(⟨"a/b", 2⟩ : ImprovedRow), ⟨"a/b", 1⟩] [⟨"a/b", 1⟩, ⟨"a/b", 2⟩]
  ∧ (mergeStep [] [⟨"o", "p", "a/b", 500, 3⟩] [⟨"a/b", 1⟩, ⟨"a/b", 2⟩]).map
      ExtRecord.openrank_latest = [1]
  ∧ (mergeStep [] [⟨"o", "p", "a/b", 500, 3⟩] [⟨"a/b", 2⟩, ⟨"a/b", 1⟩]).map
      ExtRecord.openrank_latest = [2] :=
  ⟨List.Perm.swap _ _ _, rfl, rfl⟩

/-- C9, counterexample: a dated key that cannot be parsed to `YYYY-MM`
(here `"badkey"`) is *not* excluded: `clean_date` returns it unchanged, it
stays in the cleaned series, and — sorting after `"2023-01"` — it even
supplies the series' `latest` value and `end_date`. -/
theorem malformed_key_kept_in_series :
    analyze_project_metrics "octo" "proj" [("stars", some [("badkey", 3), ("2023-01", 5)])]
      = some [("org", FVal.str "octo"), ("project", FVal.str "proj"),
              ("full_name", FVal.str "octo/proj"),
              ("stars_latest", FVal.num 3), ("stars_first", FVal.num 5),
              ("stars_growth", FVal.num (-2)),
              ("stars_start_date", FVal.str "2023-01"),
              ("stars_end_date", FVal.str "badkey")] := by
  have h : analyze_project_metrics "octo" "proj"
      [("stars", some [("badkey", 3), ("2023-01", 5)])]
      = some [("org", FVal.str "octo"), ("project", FVal.str "proj"),
              ("full_name", FVal.str "octo/proj"),
              ("stars_latest", FVal.num 3), ("stars_first", FVal.num 5),
              ("stars_growth", FVal.num (3 - 5)),
              ("stars_start_date", FVal.str "2023-01"),
              ("stars_end_date", FVal.str "badkey")] := rfl
  have h2 : (3 : Rat) - 5 = -2 := by norm_num
  rw [h, h2]

/-! ### Dictionary-overwrite lemmas, for the date-cleaning claim -/

theorem alookup_cons (p : String × Rat) (d : Series) (k : String) :
    alookup (p :: d) k = if p.1 = k then some p.2 else alookup d k := by
  by_cases h : p.1 = k <;> simp [alookup, List.find?_cons, h]

theorem alookup_append (d₁ d₂ : Series) (k : String) :
    alookup (d₁ ++ d₂) k = (alookup d₁ k).or (alookup d₂ k) := by
  cases h : (d₁.find? fun p => decide (p.1 = k)) <;>
    simp [alookup, List.find?_append, h, Option.or]

theorem alookup_overwrite (d : Series) (k : String) (v : Rat) (k' : String) (h : k' ≠ k) :
    alookup (d.map (fun p => if p.1 = k then (k, v) else p)) k' = alookup d k' := by
  induction d with
  | nil => rfl
  | cons p d ih =>
    simp only [List.map_cons]
    by_cases hp : p.1 = k
    · rw [if_pos hp, alookup_cons, alookup_cons,
        if_neg (fun hh : k = k' => h hh.symm), if_neg (fun hh : p.1 = k' => h (hp ▸ hh).symm)]
      exact ih
    · rw [if_neg hp, alookup_cons, alookup_cons]
      by_cases hk' : p.1 = k' <;> simp [hk', ih]

theorem find_overwrite (d : Series) (k : String) (v : Rat)
    (h : d.any (fun p => decide (p.1 = k)) = true) :
    alookup (d.map (fun p => if p.1 = k then (k, v) else p)) k = some v := by
  induction d with
  | nil => simp at h
  | cons p d ih =>
    simp only [List.any_cons, Bool.or_eq_true, decide_eq_true_eq] at h
    simp only [List.map_cons]
    by_cases hp : p.1 = k
    · rw [if_pos hp, alookup_cons, if_pos rfl]
    · rw [if_neg hp, alookup_cons, if_neg hp]
      exact ih (h.resolve_left hp)

theorem alookup_dictInsert (d : Series) (k : String) (v : Rat) (k' : String) :
    alookup (dictInsert d k v) k' = if k' = k then some v else alookup d k' := by
  unfold dictInsert
  by_cases hany : d.any (fun p => decide (p.1 = k)) = true
  · rw [if_pos hany]
    by_cases hk : k' = k
    · subst hk
      rw [if_pos rfl]
      exact find_overwrite d k' v hany
    · rw [if_neg hk]
      exact alookup_overwrite d k v k' hk
  · rw [if_neg hany, alookup_append]
    by_cases hk : k' = k
    · subst hk
      have hnone : alookup d k' = none := by
        have hall : ∀ p ∈ d, ¬ (decide (p.1 = k') = true) := by
          intro p hp hdec
          exact hany (List.any_eq_true.mpr ⟨p, hp, hdec⟩)
        simp [alookup, List.find?_eq_none.mpr hall]
      rw [hnone]
      simp [alookup_cons]
    · have hsingle : alookup [(k, v)] k' = none := by
        rw [alookup_cons, if_neg (fun hh : k = k' => hk hh.symm)]
        rfl
      rw [hsingle, if_neg hk, Option.or_none]

/-- The value of the *last* entry of the raw series whose cleaned key is `k`. -/
def lastCleanValue (data : Series) (k : String) : Option Rat :=
  (data.reverse.find? (fun p => decide (clean_date p.1 = k))).map Prod.snd

theorem lastCleanValue_nil (k : String) : lastCleanValue [] k = none := rfl

theorem lastCleanValue_cons (p : String × Rat) (rest : Series) (k : String) :
    lastCleanValue (p :: rest) k =
      (lastCleanValue rest k).or (if clean_date p.1 = k then some p.2 else none) := by
  unfold lastCleanValue
  rw [List.reverse_cons, List.find?_append]
  by_cases hp : clean_date p.1 = k
  · cases hf : (rest.reverse.find? fun q => decide (clean_date q.1 = k)) <;>
      simp [List.find?_cons, hp, hf, Option.or]
  · cases hf : (rest.reverse.find? fun q => decide (clean_date q.1 = k)) <;>
      simp [List.find?_cons, hp, hf, Option.or]

theorem cleanStep_of_empty (d : Series) (p : String × Rat) (h : clean_date p.1 = "") :
    cleanStep d p = d := by
  simp [cleanStep, h]

theorem cleanStep_of_nonempty (d : Series) (p : String × Rat) (h : ¬ clean_date p.1 = "") :
    cleanStep d p = dictInsert d (clean_date p.1) p.2 := by
  simp [cleanStep, h]

theorem cleanedSeries_foldl_lookup (k : String) (hk : k ≠ "") :
    ∀ (data : Series) (acc : Series),
      alookup (data.foldl cleanStep acc) k
        = (lastCleanValue data k).or (alookup acc k) := by
  intro data
  induction data with
  | nil =>
    intro acc
    simp [lastCleanValue_nil, Option.or]
  | cons p rest ih =>
    intro acc
    rw [List.foldl_cons, lastCleanValue_cons, ih (cleanStep acc p)]
    by_cases hp0 : clean_date p.1 = ""
    · have hpk : ¬ (clean_date p.1 = k) := fun hh => hk (hh ▸ hp0)
      rw [cleanStep_of_empty acc p hp0, if_neg hpk, Option.or_none]
    · rw [cleanStep_of_nonempty acc p hp0, alookup_dictInsert]
      by_cases hpk : clean_date p.1 = k
      · rw [if_pos hpk, if_pos (hpk.symm : k = clean_date p.1), Option.or_assoc]
        cases lastCleanValue rest k <;> rfl
      · rw [if_neg hpk, if_neg (fun hh : k = clean_date p.1 => hpk hh.symm), Option.or_none]

/-- C6 (amended): after cleaning, the value recorded for a month `k` is the
value of the *last* entry of the raw series whose suffix-stripped key equals
`k` — assignment order, not raw-ness, decides; the non-raw value wins exactly
when the non-raw key is iterated after the raw one. -/
theorem cleaned_series_last_write_wins (data : Series) (k : String) (hk : k ≠ "") :
    alookup (cleanedSeries data) k = lastCleanValue data k := by
  have h := cleanedSeries_foldl_lookup k hk data []
  have h2 : alookup ([] : Series) k = none := rfl
  rw [cleanedSeries, h, h2, Option.or_none]

theorem cleaned_last_write_witness :
    alookup (cleanedSeries [("2023-01", 5), ("2023-01-raw", 9)]) "2023-01"
      = lastCleanValue [("2023-01", 5), ("2023-01-raw", 9)] "2023-01"
  ∧ lastCleanValue [("2023-01", 5), ("2023-01-raw", 9)] "2023-01" = some 9 :=
  ⟨cleaned_series_last_write_wins _ _ (by decide), rfl⟩

/-! ### Characterizing the merge loop, for the deduplication claims -/

theorem eraseRank_top100ToExt (i : List ImprovedRow) (n : Int) (r : Top100Row) :
    eraseRank (top100ToExt i n r) = eraseRank (top100ToExt i 0 r) := rfl

/-- A top100 row's contribution to the merged set, modulo `rank`. -/
def mergeContrib (improved : List ImprovedRow) (existing_names : List String)
    (r : Top100Row) : Option ExtRecord :=
  if r.full_name ∈ existing_names then none
  else some (eraseRank (top100ToExt improved 0 r))

theorem mergeFold_map_eraseRank (i : List ImprovedRow) (ex : List String) :
    ∀ (t : List Top100Row) (acc : List ExtRecord),
      (t.foldl (mergeLoopStep i ex) acc).map eraseRank
        = acc.map eraseRank ++ t.filterMap (mergeContrib i ex)
  | [], acc => by simp
  | r :: t, acc => by
    rw [List.foldl_cons, List.filterMap_cons]
    by_cases hr : r.full_name ∈ ex
    · rw [show mergeLoopStep i ex acc r = acc from if_pos hr,
        show mergeContrib i ex r = none from if_pos hr,
        mergeFold_map_eraseRank i ex t acc]
    · rw [show mergeLoopStep i ex acc r = acc ++ [top100ToExt i ((acc.length : Int) + 1) r] from
          if_neg hr,
        show mergeContrib i ex r = some (eraseRank (top100ToExt i 0 r)) from if_neg hr,
        mergeFold_map_eraseRank i ex t _, List.map_append, List.append_assoc]
      rfl

theorem mergeStep_eq_foldl (c : List CompleteRow) (t : List Top100Row) (i : List ImprovedRow) :
    mergeStep c t i
      = t.foldl (mergeLoopStep i (c.map CompleteRow.full_name)) (c.map completeToExt) := by
  simp only [mergeStep]
  have hex : (c.map completeToExt).map ExtRecord.full_name = c.map CompleteRow.full_name := by
    rw [List.map_map]
    rfl
  rw [hex]

theorem mergeStep_map_eraseRank (c : List CompleteRow) (t : List Top100Row)
    (i : List ImprovedRow) :
    (mergeStep c t i).map eraseRank
      = c.map (fun r => eraseRank (completeToExt r))
        ++ t.filterMap (mergeContrib i (c.map CompleteRow.full_name)) := by
  rw [mergeStep_eq_foldl, mergeFold_map_eraseRank, List.map_map]
  rfl

/-- C7 (amended): the merge is field-by-field for top100-only rows — `stars`
comes from the top100 source while `openrank` comes from the first matching
improved-analysis row — but provenance is recorded as the single record-level
tag `"top100_only"`, not per field. -/
theorem merge_is_field_by_field (c : List CompleteRow) (t : List Top100Row)
    (i : List ImprovedRow) (r : Top100Row) (m : ImprovedRow)
    (hr : r ∈ t) (hnot : r.full_name ∉ c.map CompleteRow.full_name)
    (hfind : i.find? (fun x => decide (x.full_name = r.full_name)) = some m) :
    ∃ rec ∈ (mergeStep c t i).map eraseRank,
      rec.full_name = r.full_name ∧ rec.total_stars = r.stars ∧
      rec.monthly_stars_latest = r.stars ∧ rec.activity_latest = r.activity ∧
      rec.openrank_latest = m.openrank_latest ∧ rec.source = "top100_only" := by
  refine ⟨eraseRank (top100ToExt i 0 r), ?_, rfl, rfl, rfl, rfl, ?_, rfl⟩
  · rw [mergeStep_map_eraseRank]
    refine List.mem_append_right _ (List.mem_filterMap.mpr ⟨r, hr, ?_⟩)
    exact if_neg hnot
  · show lookupOpenrank i r.full_name = m.openrank_latest
    unfold lookupOpenrank
    rw [hfind]

theorem merge_field_by_field_witness :
    ∃ rec ∈ (mergeStep [] [⟨"octo", "proj", "octo/proj", 500, 3⟩]
        [⟨"octo/proj", 7.2⟩]).map eraseRank,
      rec.full_name = "octo/proj" ∧ rec.total_stars = 500 ∧
      rec.monthly_stars_latest = 500 ∧ rec.activity_latest = 3 ∧
      rec.openrank_latest = (7.2 : Rat) ∧ rec.source = "top100_only" :=
  merge_is_field_by_field [] [⟨"octo", "proj", "octo/proj", 500, 3⟩] [⟨"octo/proj", 7.2⟩]
    ⟨"octo", "proj", "octo/proj", 500, 3⟩ ⟨"octo/proj", 7.2⟩
    (List.mem_singleton.mpr rfl) (by decide) rfl

/-- `find?` returns the same result on a permuted list when at most one
element can satisfy the predicate. -/
theorem find?_eq_of_perm_of_unique {α : Type} (p : α → Bool) {l l' : List α}
    (hperm : List.Perm l l')
    (hu : ∀ a ∈ l, ∀ b ∈ l, p a = true → p b = true → a = b) :
    l.find? p = l'.find? p := by
  cases hf : l.find? p with
  | none =>
    cases hf' : l'.find? p with
    | none => rfl
    | some b =>
      exact absurd (List.find?_some hf')
        (List.find?_eq_none.mp hf b (hperm.symm.subset (List.mem_of_find?_eq_some hf')))
  | some a =>
    have ha := List.mem_of_find?_eq_some hf
    have hpa := List.find?_some hf
    cases hf' : l'.find? p with
    | none =>
      exact absurd hpa (List.find?_eq_none.mp hf' a (hperm.subset ha))
    | some b =>
      have hb := hperm.symm.subset (List.mem_of_find?_eq_some hf')
      rw [hu a ha b hb hpa (List.find?_some hf')]

theorem lookupOpenrank_perm (i i' : List ImprovedRow) (hperm : List.Perm i i')
    (hnd : (i.map ImprovedRow.full_name).Nodup) (fn : String) :
    lookupOpenrank i fn = lookupOpenrank i' fn := by
  unfold lookupOpenrank
  rw [find?_eq_of_perm_of_unique _ hperm ?_]
  intro a ha b hb hpa hpb
  have ha' : a.full_name = fn := of_decide_eq_true hpa
  have hb' : b.full_name = fn := of_decide_eq_true hpb
  exact List.inj_on_of_nodup_map hnd ha hb (ha'.trans hb'.symm)

/-- C8 (amended): merging is commutative in outcome modulo the `rank` column
(which line 105 overwrites anyway), *provided* the improved-analysis source
has at most one row per `full_name`: permuting any of the three candidate
sources yields the same multiset of merged records. -/
theorem merge_perm_invariant (c c' : List CompleteRow) (t t' : List Top100Row)
    (i i' : List ImprovedRow)
    (hc : List.Perm c' c) (ht : List.Perm t' t) (hi : List.Perm i' i)
    (hnd : (i.map ImprovedRow.full_name).Nodup) :
    List.Perm ((mergeStep c' t' i').map eraseRank) ((mergeStep c t i).map eraseRank) := by
  rw [mergeStep_map_eraseRank, mergeStep_map_eraseRank]
  refine List.Perm.append (hc.map _) ?_
  have hex : ∀ fn, fn ∈ c'.map CompleteRow.full_name ↔ fn ∈ c.map CompleteRow.full_name :=
    fun fn => (hc.map CompleteRow.full_name).mem_iff
  have hfun : ∀ r : Top100Row,
      mergeContrib i' (c'.map CompleteRow.full_name) r
        = mergeContrib i (c.map CompleteRow.full_name) r := by
    intro r
    unfold mergeContrib
    by_cases hrm : r.full_name ∈ c.map CompleteRow.full_name
    · rw [if_pos hrm, if_pos ((hex r.full_name).mpr hrm)]
    · rw [if_neg hrm, if_neg (fun hh => hrm ((hex r.full_name).mp hh))]
      have hlk : lookupOpenrank i' r.full_name = lookupOpenrank i r.full_name :=
        (lookupOpenrank_perm i i' hi.symm hnd r.full_name).symm
      simp [top100ToExt, eraseRank, hlk]
  have hcongr : t'.filterMap (mergeContrib i' (c'.map CompleteRow.full_name))
      = t'.filterMap (mergeContrib i (c.map CompleteRow.full_name)) :=
    List.filterMap_congr (fun r _ => hfun r)
  rw [hcongr]
  exact ht.filterMap _

theorem merge_perm_invariant_witness :
    List.Perm
      ((mergeStep [] [⟨"o", "p", "a/b", 500, 3⟩]
          [⟨"c/d", 2⟩, ⟨"a/b", 1⟩]).map eraseRank)
      ((mergeStep [] [⟨"o", "p", "a/b", 500, 3⟩]
          [⟨"a/b", 1⟩, ⟨"c/d", 2⟩]).map eraseRank) :=
  merge_perm_invariant [] [] [⟨"o", "p", "a/b", 500, 3⟩] [⟨"o", "p", "a/b", 500, 3⟩]
    [⟨"a/b", 1⟩, ⟨"c/d", 2⟩] [⟨"c/d", 2⟩, ⟨"a/b", 1⟩]
    (List.Perm.refl _) (List.Perm.refl _) (List.Perm.swap _ _ _) (by decide)

/-! ### Error isolation in `analyze_project_metrics` -/

theorem dictInsert_ne_nil (d : Series) (k : String) (v : Rat) : dictInsert d k v ≠ [] := by
  unfold dictInsert
  split
  · intro hmap
    rename_i hany
    rw [List.map_eq_nil_iff] at hmap
    subst hmap
    simp at hany
  · exact List.append_ne_nil_of_right_ne_nil _ (List.cons_ne_nil _ _)

theorem foldl_cleanStep_ne_nil :
    ∀ (data : Series) (acc : Series), acc ≠ [] → data.foldl cleanStep acc ≠ []
  | [], _, hacc => hacc
  | p :: rest, acc, hacc => by
    rw [List.foldl_cons]
    by_cases hp : clean_date p.1 = ""
    · rw [cleanStep_of_empty acc p hp]
      exact foldl_cleanStep_ne_nil rest acc hacc
    · rw [cleanStep_of_nonempty acc p hp]
      exact foldl_cleanStep_ne_nil rest _ (dictInsert_ne_nil _ _ _)

theorem cleanedSeries_ne_nil (data : Series) (h : ∃ p ∈ data, clean_date p.1 ≠ "") :
    cleanedSeries data ≠ [] := by
  induction data with
  | nil => obtain ⟨p, hp, _⟩ := h; cases hp
  | cons p rest ih =>
    show List.foldl cleanStep (cleanStep [] p) rest ≠ []
    by_cases hp : clean_date p.1 = ""
    · rw [cleanStep_of_empty _ p hp]
      refine ih ?_
      obtain ⟨q, hq, hqne⟩ := h
      rcases List.mem_cons.mp hq with rfl | hq'
      · exact absurd hp hqne
      · exact ⟨q, hq', hqne⟩
    · rw [cleanStep_of_nonempty _ p hp]
      exact foldl_cleanStep_ne_nil rest _ (dictInsert_ne_nil _ _ _)

theorem analyzeMetricFields_ne_nil (m : String) (data : Series)
    (hd : data ≠ []) (hc : cleanedSeries data ≠ []) :
    analyzeMetricFields m data ≠ [] := by
  unfold analyzeMetricFields
  rw [if_neg hd, if_neg hc]
  by_cases h1 : 1 < (sortKeys (seriesKeys (cleanedSeries data))).length <;> simp [h1]

theorem metricsFields_cons (m : String × Option Series) (ms : List (String × Option Series)) :
    metricsFields (m :: ms)
      = (match m.2 with
         | some data => analyzeMetricFields m.1 data
         | none => []) ++ metricsFields ms := rfl

theorem metricsFields_append (ms₁ ms₂ : List (String × Option Series)) :
    metricsFields (ms₁ ++ ms₂) = metricsFields ms₁ ++ metricsFields ms₂ := by
  induction ms₁ with
  | nil => rfl
  | cons m ms ih =>
    rw [List.cons_append, metricsFields_cons, metricsFields_cons, ih, List.append_assoc]

/-- C9 (amended): a series containing a key that cannot be parsed to
`YYYY-MM` is *not* excluded — every key whose suffix-stripped form is
non-empty is kept verbatim, so the series still contributes fields — and the
failure is isolated: the project is still emitted, the other metrics'
contributions are exactly what they are in any other run, and every other
project of the batch still appears. -/
theorem malformed_series_still_processed (org proj : String)
    (pre post : List (String × Option Series)) (m : String) (data : Series)
    (h : ∃ p ∈ data, clean_date p.1 ≠ "") :
    analyze_project_metrics org proj (pre ++ (m, some data) :: post)
      = some ([("org", FVal.str org), ("project", FVal.str proj),
               ("full_name", FVal.str (org ++ "/" ++ proj))]
              ++ (metricsFields pre ++ (analyzeMetricFields m data ++ metricsFields post)))
  ∧ analyzeMetricFields m data ≠ []
  ∧ ∀ (P1 P2 : List (String × String × List (String × Option Series))),
      analyzeBatch (P1 ++ (org, proj, pre ++ (m, some data) :: post) :: P2)
        = analyzeBatch P1
          ++ (([("org", FVal.str org), ("project", FVal.str proj),
                ("full_name", FVal.str (org ++ "/" ++ proj))]
               ++ (metricsFields pre ++ (analyzeMetricFields m data ++ metricsFields post)))
              :: analyzeBatch P2) := by
  have hd : data ≠ [] := by
    obtain ⟨p, hp, _⟩ := h
    intro hnil
    rw [hnil] at hp
    cases hp
  have hne : analyzeMetricFields m data ≠ [] :=
    analyzeMetricFields_ne_nil m data hd (cleanedSeries_ne_nil data h)
  have hms : metricsFields (pre ++ (m, some data) :: post)
      = metricsFields pre ++ (analyzeMetricFields m data ++ metricsFields post) := by
    rw [metricsFields_append, metricsFields_cons]
  have hmain : analyze_project_metrics org proj (pre ++ (m, some data) :: post)
      = some ([("org", FVal.str org), ("project", FVal.str proj),
               ("full_name", FVal.str (org ++ "/" ++ proj))]
              ++ (metricsFields pre ++ (analyzeMetricFields m data ++ metricsFields post))) := by
    unfold analyze_project_metrics
    rw [hms]
    rw [if_pos ?_]
    have hlen : 0 < (analyzeMetricFields m data).length := List.length_pos.mpr hne
    simp only [List.length_append, List.length_cons, List.length_nil]
    omega
  refine ⟨hmain, hne, ?_⟩
  intro P1 P2
  unfold analyzeBatch
  rw [List.filterMap_append, List.filterMap_cons]
  simp only [hmain]

theorem malformed_series_witness :
    analyze_project_metrics "octo" "proj" ([] ++ ("stars", some [("badkey", 3)]) :: [])
      = some ([("org", FVal.str "octo"), ("project", FVal.str "proj"),
               ("full_name", FVal.str ("octo" ++ "/" ++ "proj"))]
              ++ (metricsFields []
                  ++ (analyzeMetricFields "stars" [("badkey", 3)] ++ metricsFields [])))
  ∧ analyzeMetricFields "stars" [("badkey", 3)] ≠ []
  ∧ ∀ (P1 P2 : List (String × String × List (String × Option Series))),
      analyzeBatch (P1 ++ ("octo", "proj", [] ++ ("stars", some [("badkey", 3)]) :: []) :: P2)
        = analyzeBatch P1
          ++ (([("org", FVal.str "octo"), ("project", FVal.str "proj"),
                ("full_name", FVal.str ("octo" ++ "/" ++ "proj"))]
               ++ (metricsFields []
                   ++ (analyzeMetricFields "stars" [("badkey", 3)] ++ metricsFields [])))
              :: analyzeBatch P2) :=
  malformed_series_still_processed "octo" "proj" [] [] "stars" [("badkey", 3)]
    ⟨("badkey", 3), List.mem_singleton.mpr rfl, by decide⟩

/-! ### The classifier -/

theorem pickGroup_nil (n : String) : pickGroup n [] = "其他" := rfl

theorem pickGroup_cons (n : String) (g : String × List String)
    (gs : List (String × List String)) :
    pickGroup n (g :: gs) = if anyKeyword n g.2 then g.1 else pickGroup n gs := by
  unfold pickGroup
  rw [List.find?_cons]
  cases h : anyKeyword n g.2 <;> simp [h]

theorem pickGroup_mem (n : String) (gs : List (String × List String)) :
    pickGroup n gs ∈ gs.map Prod.fst ++ ["其他"] := by
  unfold pickGroup
  cases h : gs.find? (fun g => anyKeyword n g.2) with
  | none => simp
  | some g =>
    exact List.mem_append_left _ (List.mem_map.mpr ⟨g, List.mem_of_find?_eq_some h, rfl⟩)

theorem classify_eq_spec (name : String) :
    enhanced_classify_project_type name = classifySpec name := by
  simp only [enhanced_classify_project_type, classifySpec, keywordGroups]
  rw [pickGroup_cons, pickGroup_cons, pickGroup_cons, pickGroup_cons, pickGroup_cons,
    pickGroup_cons, pickGroup_cons, pickGroup_cons, pickGroup_cons, pickGroup_cons,
    pickGroup_cons, pickGroup_cons, pickGroup_cons]
  rfl

theorem classify_mem (name : String) :
    enhanced_classify_project_type name ∈ categoriesList := by
  rw [classify_eq_spec]
  exact pickGroup_mem (pyLower name) keywordGroups

theorem classify_vscode (name : String) (h : containsStr (pyLower name) "vscode" = true) :
    enhanced_classify_project_type name = "开发工具" := by
  have h1 : anyKeyword (pyLower name)
      ["vscode", "studio", "ide", "editor", "debugger", "terminal", "jupyter"] = true :=
    List.any_eq_true.mpr ⟨"vscode", by decide, h⟩
  rw [classify_eq_spec]
  simp only [classifySpec, keywordGroups, pickGroup_cons]
  rw [if_pos h1]

/-- C5: the classifier is a total function into the fixed taxonomy (hence
deterministic: it is a pure function of the name); it agrees with the
spec's formulation "first keyword group with a case-insensitive substring
match, else the catch-all"; and a name containing both `vscode` and `docker`
falls in the earlier 开发工具 (development-tools) group, not 容器编排
(container orchestration). -/
theorem classifier_total_first_match (name : String) :
    enhanced_classify_project_type name ∈ categoriesList
  ∧ enhanced_classify_project_type name = classifySpec name
  ∧ (containsStr (pyLower name) "vscode" = true →
      containsStr (pyLower name) "docker" = true →
      enhanced_classify_project_type name = "开发工具") :=
  ⟨classify_mem name, classify_eq_spec name, fun h1 _ => classify_vscode name h1⟩

theorem classifier_witness :
    enhanced_classify_project_type "vscode-docker-extension" = "开发工具"
  ∧ enhanced_classify_project_type "vscode-docker-extension" ∈ categoriesList :=
  ⟨(classifier_total_first_match "vscode-docker-extension").2.2 (by decide) (by decide),
   (classifier_total_first_match "vscode-docker-extension").1⟩

/-! ### Sorted-key endpoints, for the normalizer claims -/

theorem lexLe_refl : ∀ x : List Char, lexLe x x = true
  | [] => rfl
  | a :: as => by simp [lexLe, lexLe_refl as]

theorem strLe_refl (s : String) : strLe s s := lexLe_refl s.toList

theorem headD_mem (l : List String) (h : l ≠ []) : l.headD "" ∈ l := by
  cases l with
  | nil => exact absurd rfl h
  | cons a t => exact List.mem_cons_self a t

theorem getLastD_mem : ∀ (l : List String), l ≠ [] → ∀ d : String, l.getLastD d ∈ l
  | [a], _, d => by simp
  | a :: b :: t, _, d => by
    rw [List.getLastD_cons]
    exact List.mem_cons_of_mem a (getLastD_mem (b :: t) (List.cons_ne_nil _ _) a)

theorem getLastD_irrel : ∀ (l : List String), l ≠ [] → ∀ d d' : String,
    l.getLastD d = l.getLastD d'
  | [_], _, _, _ => rfl
  | _ :: _ :: _, _, _, _ => by
    conv_lhs => rw [List.getLastD_cons]
    conv_rhs => rw [List.getLastD_cons]

theorem sorted_headD_le (s : List String) (hs : List.Sorted strLe s) (k : String)
    (hk : k ∈ s) : strLe (s.headD "") k := by
  cases s with
  | nil => cases hk
  | cons a t =>
    rcases List.mem_cons.mp hk with rfl | h'
    · exact strLe_refl k
    · exact List.rel_of_sorted_cons hs _ h'

theorem sorted_le_getLastD : ∀ (s : List String), List.Sorted strLe s → ∀ k ∈ s,
    strLe k (s.getLastD "")
  | [], _, k, hk => absurd hk (List.not_mem_nil k)
  | a :: t, hs, k, hk => by
    rw [List.getLastD_cons]
    cases t with
    | nil =>
      rcases List.mem_cons.mp hk with rfl | h'
      · exact strLe_refl k
      · cases h'
    | cons b t' =>
      rcases List.mem_cons.mp hk with rfl | h'
      · exact List.rel_of_sorted_cons hs _ (getLastD_mem (b :: t') (List.cons_ne_nil _ _) _)
      · have hrec := sorted_le_getLastD (b :: t') hs.of_cons k h'
        rwa [getLastD_irrel (b :: t') (List.cons_ne_nil _ _) "" a] at hrec

theorem sortKeys_perm (ks : List String) : List.Perm (sortKeys ks) ks :=
  List.perm_insertionSort strLe ks

theorem sortKeys_sorted (ks : List String) : List.Sorted strLe (sortKeys ks) :=
  List.sorted_insertionSort strLe ks

/-- `data[k]` recovers the value bound to `k` when the dict's keys are
distinct. -/
theorem pyVal_eq_of_mem (data : Series) (hnd : (seriesKeys data).Nodup) (k : String)
    (v : Rat) (hmem : (k, v) ∈ data) : pyVal data k = v := by
  unfold pyVal
  cases hf : data.find? (fun p => decide (p.1 = k)) with
  | none =>
    have h := List.find?_eq_none.mp hf (k, v) hmem
    simp at h
  | some p =>
    have hk : p.1 = k := by
      have h := List.find?_some hf
      simpa using h
    have hpq : p = (k, v) :=
      List.inj_on_of_nodup_map hnd (List.mem_of_find?_eq_some hf) hmem hk
    rw [hpq]

/-- With at least two rows and distinct keys, the head and last of the sorted
key list are the minimum and maximum keys, and `data[·]` recovers their
values. -/
theorem sortKeys_endpoints (data : Series) (h2 : 2 ≤ data.length)
    (hnd : (seriesKeys data).Nodup) :
    ∃ kf vf kl vl, (kf, vf) ∈ data ∧ (kl, vl) ∈ data ∧
      (∀ k ∈ seriesKeys data, strLe kf k) ∧ (∀ k ∈ seriesKeys data, strLe k kl) ∧
      (sortKeys (seriesKeys data)).headD "" = kf ∧
      (sortKeys (seriesKeys data)).getLastD "" = kl ∧
      pyVal data kf = vf ∧ pyVal data kl = vl ∧
      1 < (sortKeys (seriesKeys data)).length ∧ data ≠ [] := by
  have hlen : (sortKeys (seriesKeys data)).length = data.length := by
    rw [(sortKeys_perm (seriesKeys data)).length_eq]
    exact List.length_map data Prod.fst
  have h1 : 1 < (sortKeys (seriesKeys data)).length := by omega
  have hne : sortKeys (seriesKeys data) ≠ [] := by
    intro hnil
    rw [hnil] at h1
    simp at h1
  have hdne : data ≠ [] := by
    intro hnil
    rw [hnil] at h2
    simp at h2
  have hkf_mem : (sortKeys (seriesKeys data)).headD "" ∈ seriesKeys data :=
    (sortKeys_perm (seriesKeys data)).subset (headD_mem _ hne)
  have hkl_mem : (sortKeys (seriesKeys data)).getLastD "" ∈ seriesKeys data :=
    (sortKeys_perm (seriesKeys data)).subset (getLastD_mem _ hne "")
  obtain ⟨pf, hpf, hpf1⟩ := List.mem_map.mp hkf_mem
  obtain ⟨pl, hpl, hpl1⟩ := List.mem_map.mp hkl_mem
  refine ⟨pf.1, pf.2, pl.1, pl.2, hpf, hpl, ?_, ?_, hpf1.symm, hpl1.symm, ?_, ?_, h1, hdne⟩
  · intro k hk
    rw [hpf1]
    exact sorted_headD_le _ (sortKeys_sorted _) k ((sortKeys_perm _).symm.subset hk)
  · intro k hk
    rw [hpl1]
    exact sorted_le_getLastD _ (sortKeys_sorted _) k ((sortKeys_perm _).symm.subset hk)
  · exact pyVal_eq_of_mem data hnd pf.1 pf.2 hpf
  · exact pyVal_eq_of_mem data hnd pl.1 pl.2 hpl

/-- C3: for a delta series (`stars`/`technical_fork` in `02_deep_analysis`)
with at least two dated points, the produced total — the script stores it in
the `_latest` field — is the sum of all monthly values, and `_growth` is the
raw monthly value at the chronologically last key minus the raw monthly value
at the chronologically first key (not a running total); a single-point series
yields only the `_latest` field and no growth or first field. -/
theorem delta_normalizer_claim (m : String) (data : Series)
    (hnd : (seriesKeys data).Nodup) :
    (2 ≤ data.length →
      ∃ kf vf kl vl, (kf, vf) ∈ data ∧ (kl, vl) ∈ data ∧
        (∀ k ∈ seriesKeys data, strLe kf k) ∧ (∀ k ∈ seriesKeys data, strLe k kl) ∧
        deltaFields m data =
          [(m ++ "_latest", seriesSum data),
           (m ++ "_first", vf),
           (m ++ "_growth", vl - vf)])
  ∧ (∀ k v, data = [(k, v)] → deltaFields m data = [(m ++ "_latest", v)]) := by
  constructor
  · intro h2
    obtain ⟨kf, vf, kl, vl, hf, hl, hmin, hmax, hhd, hlast, hvf, hvl, h1, hdne⟩ :=
      sortKeys_endpoints data h2 hnd
    refine ⟨kf, vf, kl, vl, hf, hl, hmin, hmax, ?_⟩
    simp only [deltaFields]
    rw [if_neg hdne, if_pos h1, hhd, hlast, hvf, hvl]
  · intro k v hdata
    subst hdata
    simp only [deltaFields]
    rw [if_neg (List.cons_ne_nil _ _)]
    have hsk : sortKeys (seriesKeys [(k, v)]) = [k] := rfl
    rw [hsk, if_neg (by simp : ¬ (1 < ([k] : List String).length))]
    simp [seriesSum]

theorem delta_normalizer_witness :
    (2 ≤ ([("2024-01", (100 : Rat)), ("2024-02", 150), ("2024-03", 30)] : Series).length →
      ∃ kf vf kl vl,
        (kf, vf) ∈ ([("2024-01", (100 : Rat)), ("2024-02", 150), ("2024-03", 30)] : Series) ∧
        (kl, vl) ∈ ([("2024-01", (100 : Rat)), ("2024-02", 150), ("2024-03", 30)] : Series) ∧
        (∀ k ∈ seriesKeys [("2024-01", (100 : Rat)), ("2024-02", 150), ("2024-03", 30)],
          strLe kf k) ∧
        (∀ k ∈ seriesKeys [("2024-01", (100 : Rat)), ("2024-02", 150), ("2024-03", 30)],
          strLe k kl) ∧
        deltaFields "stars" [("2024-01", 100), ("2024-02", 150), ("2024-03", 30)] =
          [("stars" ++ "_latest",
             seriesSum [("2024-01", 100), ("2024-02", 150), ("2024-03", 30)]),
           ("stars" ++ "_first", vf),
           ("stars" ++ "_growth", vl - vf)])
  ∧ (∀ k v, ([("2024-01", (100 : Rat)), ("2024-02", 150), ("2024-03", 30)] : Series) = [(k, v)] →
      deltaFields "stars" [("2024-01", 100), ("2024-02", 150), ("2024-03", 30)] =
        [("stars" ++ "_latest", v)]) :=
  delta_normalizer_claim "stars" [("2024-01", 100), ("2024-02", 150), ("2024-03", 30)]
    (by decide)

/-- C4: a snapshot series (every metric other than `stars`/`technical_fork`)
with at least two dated points yields exactly the fields `_latest`, `_first`,
`_growth` — no total field is produced — and `_latest` is the raw value at
the chronologically last key, never a sum over the series. -/
theorem snapshot_normalizer_claim (m : String) (data : Series)
    (hnd : (seriesKeys data).Nodup) (h2 : 2 ≤ data.length) :
    ∃ kf vf kl vl, (kf, vf) ∈ data ∧ (kl, vl) ∈ data ∧
      (∀ k ∈ seriesKeys data, strLe kf k) ∧ (∀ k ∈ seriesKeys data, strLe k kl) ∧
      snapshotFields m data =
        [(m ++ "_latest", vl), (m ++ "_first", vf), (m ++ "_growth", vl - vf)] ∧
      (snapshotFields m data).map Prod.fst
        = [m ++ "_latest", m ++ "_first", m ++ "_growth"] := by
  obtain ⟨kf, vf, kl, vl, hf, hl, hmin, hmax, hhd, hlast, hvf, hvl, h1, hdne⟩ :=
    sortKeys_endpoints data h2 hnd
  have heq : snapshotFields m data =
      [(m ++ "_latest", vl), (m ++ "_first", vf), (m ++ "_growth", vl - vf)] := by
    simp only [snapshotFields]
    rw [if_neg hdne, if_pos h1, hhd, hlast, hvf, hvl]
  exact ⟨kf, vf, kl, vl, hf, hl, hmin, hmax, heq, by rw [heq]; rfl⟩

theorem snapshot_normalizer_witness :
    ∃ kf vf kl vl,
      (kf, vf) ∈ ([("2024-01", (7 : Rat)), ("2024-02", 9)] : Series) ∧
      (kl, vl) ∈ ([("2024-01", (7 : Rat)), ("2024-02", 9)] : Series) ∧
      (∀ k ∈ seriesKeys [("2024-01", (7 : Rat)), ("2024-02", 9)], strLe kf k) ∧
      (∀ k ∈ seriesKeys [("2024-01", (7 : Rat)), ("2024-02", 9)], strLe k kl) ∧
      snapshotFields "openrank" [("2024-01", 7), ("2024-02", 9)] =
        [("openrank" ++ "_latest", vl), ("openrank" ++ "_first", vf),
         ("openrank" ++ "_growth", vl - vf)] ∧
      (snapshotFields "openrank" [("2024-01", 7), ("2024-02", 9)]).map Prod.fst
        = ["openrank" ++ "_latest", "openrank" ++ "_first", "openrank" ++ "_growth"] :=
  snapshot_normalizer_claim "openrank" [("2024-01", 7), ("2024-02", 9)] (by decide) (by decide)

/-! ### The ranking pass -/

instance : IsTotal ExtRecord openrankDesc :=
  ⟨fun a b => le_total b.openrank_latest a.openrank_latest⟩

instance : IsTrans ExtRecord openrankDesc :=
  ⟨fun _ _ _ hab hbc => le_trans hbc hab⟩

instance : IsTotal ExtRecord starsDesc :=
  ⟨fun a b => le_total b.total_stars a.total_stars⟩

instance : IsTrans ExtRecord starsDesc :=
  ⟨fun _ _ _ hab hbc => le_trans hbc hab⟩

theorem assignRanks_length (l : List ExtRecord) : (assignRanks l).length = l.length := by
  simp [assignRanks]

theorem assignRanks_getElem (l : List ExtRecord) (i : Nat) (h : i < l.length)
    (h2 : i < (assignRanks l).length) :
    (assignRanks l)[i] = { l[i] with rank := (i : Int) + 1 } := by
  simp [assignRanks]

theorem assignRanks_map_rank (l : List ExtRecord) :
    (assignRanks l).map ExtRecord.rank = (List.range l.length).map (fun (i : Nat) => (i : Int) + 1) := by
  apply List.ext_getElem
  · simp [assignRanks_length]
  · intro i h1 h2
    have hi : i < l.length := by
      have := h1
      rw [List.length_map, assignRanks_length] at this
      exact this
    rw [List.getElem_map, List.getElem_map, List.getElem_range, assignRanks_getElem l i hi]

theorem assignRanks_map_eraseRank (l : List ExtRecord) :
    (assignRanks l).map eraseRank = l.map eraseRank := by
  apply List.ext_getElem
  · simp [assignRanks_length]
  · intro i h1 h2
    have hi : i < l.length := by
      have := h1
      rw [List.length_map, assignRanks_length] at this
      exact this
    rw [List.getElem_map, List.getElem_map, assignRanks_getElem l i hi]
    rfl

theorem mem_dfWith_has {l : List ExtRecord} {x : ExtRecord} (h : x ∈ dfWith l) :
    hasOpenrank x = true :=
  (List.mem_filter.mp ((List.mem_insertionSort openrankDesc).mp h)).2

theorem mem_dfWithout_not_has {l : List ExtRecord} {x : ExtRecord} (h : x ∈ dfWithout l) :
    hasOpenrank x = false := by
  have h2 := (List.mem_filter.mp ((List.mem_insertionSort starsDesc).mp h)).2
  simpa using h2

theorem dfWith_sorted (l : List ExtRecord) : List.Sorted openrankDesc (dfWith l) :=
  List.sorted_insertionSort openrankDesc _

theorem dfWithout_sorted (l : List ExtRecord) : List.Sorted starsDesc (dfWithout l) :=
  List.sorted_insertionSort starsDesc _

theorem split_length (l : List ExtRecord) :
    (dfWith l).length + (dfWithout l).length = l.length := by
  have hperm := (List.filter_append_perm hasOpenrank l).length_eq
  rw [List.length_append] at hperm
  unfold dfWith dfWithout
  rw [List.length_insertionSort, List.length_insertionSort]
  exact hperm

theorem rank_preserves_hasOpenrank (x : ExtRecord) (n : Int) :
    hasOpenrank { x with rank := n } = hasOpenrank x := rfl

/-- Every element of the ranked output is the element of the sorted
concatenation at its rank's position, with the rank rewritten to position+1. -/
theorem rankProjects_elem (l : List ExtRecord) {p : ExtRecord} (hp : p ∈ rankProjects l) :
    ∃ i : Nat, ∃ h : i < (dfWith l ++ dfWithout l).length,
      p = { (dfWith l ++ dfWithout l)[i] with rank := (i : Int) + 1 } := by
  obtain ⟨j, hj, hpe⟩ := List.mem_iff_getElem.mp hp
  have hjL : j < (dfWith l ++ dfWithout l).length := by
    have := hj
    rw [show rankProjects l = assignRanks (dfWith l ++ dfWithout l) from rfl,
      assignRanks_length] at this
    exact this
  refine ⟨j, hjL, ?_⟩
  rw [← hpe]
  exact assignRanks_getElem (dfWith l ++ dfWithout l) j hjL hj

/-- C1: the ranking pass partitions the records by the has-openrank mask,
keeps exactly the input records (modulo the overwritten `rank` column),
assigns ranks that are literally `1..N`, orders the has-openrank partition by
openrank descending and the missing-openrank partition by total stars
descending, and ranks every missing-openrank record strictly after every
has-openrank record. -/
theorem ranking_partitions_and_ranks (l : List ExtRecord) :
    ((rankProjects l).map ExtRecord.rank
        = (List.range l.length).map (fun (i : Nat) => (i : Int) + 1))
  ∧ List.Perm ((rankProjects l).map eraseRank) (l.map eraseRank)
  ∧ (∀ p ∈ rankProjects l, ∀ q ∈ rankProjects l,
      hasOpenrank p = true → hasOpenrank q = true → p.rank < q.rank →
        q.openrank_latest ≤ p.openrank_latest)
  ∧ (∀ p ∈ rankProjects l, ∀ q ∈ rankProjects l,
      hasOpenrank p = false → hasOpenrank q = false → p.rank < q.rank →
        q.total_stars ≤ p.total_stars)
  ∧ (∀ p ∈ rankProjects l, ∀ q ∈ rankProjects l,
      hasOpenrank p = true → hasOpenrank q = false → p.rank < q.rank) := by
  have hrfl : rankProjects l = assignRanks (dfWith l ++ dfWithout l) := rfl
  have hLlen : (dfWith l ++ dfWithout l).length = l.length := by
    rw [List.length_append]
    exact split_length l
  have hApos : ∀ (i : Nat) (h : i < (dfWith l ++ dfWithout l).length),
      hasOpenrank ((dfWith l ++ dfWithout l)[i]) = true → i < (dfWith l).length := by
    intro i h hhas
    by_contra hge
    push_neg at hge
    rw [List.getElem_append_right hge] at hhas
    have hlt2 : i - (dfWith l).length < (dfWithout l).length := by
      rw [List.length_append] at h
      omega
    have hmem : (dfWithout l)[i - (dfWith l).length] ∈ dfWithout l := List.getElem_mem _
    rw [mem_dfWithout_not_has hmem] at hhas
    cases hhas
  have hBpos : ∀ (i : Nat) (h : i < (dfWith l ++ dfWithout l).length),
      hasOpenrank ((dfWith l ++ dfWithout l)[i]) = false → (dfWith l).length ≤ i := by
    intro i h hhas
    by_contra hlt
    push_neg at hlt
    rw [List.getElem_append_left hlt] at hhas
    have hmem : (dfWith l)[i] ∈ dfWith l := List.getElem_mem _
    rw [mem_dfWith_has hmem] at hhas
    cases hhas
  refine ⟨?_, ?_, ?_, ?_, ?_⟩
  · rw [hrfl, assignRanks_map_rank, hLlen]
  · rw [hrfl, assignRanks_map_eraseRank]
    have hperm : List.Perm (dfWith l ++ dfWithout l)
        (l.filter hasOpenrank ++ l.filter (fun x => !hasOpenrank x)) :=
      List.Perm.append (List.perm_insertionSort _ _) (List.perm_insertionSort _ _)
    exact (hperm.trans (List.filter_append_perm hasOpenrank l)).map eraseRank
  · intro p hp q hq hhp hhq hrank
    obtain ⟨i, hi, rfl⟩ := rankProjects_elem l hp
    obtain ⟨j, hj, rfl⟩ := rankProjects_elem l hq
    rw [rank_preserves_hasOpenrank] at hhp hhq
    have hiA : i < (dfWith l).length := hApos i hi hhp
    have hjA : j < (dfWith l).length := hApos j hj hhq
    have hij : i < j := by
      have : (i : Int) + 1 < (j : Int) + 1 := hrank
      omega
    have hsorted := (dfWith_sorted l).rel_get_of_lt
      (show (⟨i, hiA⟩ : Fin (dfWith l).length) < ⟨j, hjA⟩ from hij)
    show ((dfWith l ++ dfWithout l)[j]).openrank_latest
        ≤ ((dfWith l ++ dfWithout l)[i]).openrank_latest
    rw [List.getElem_append_left hiA, List.getElem_append_left hjA]
    simpa [List.get_eq_getElem, openrankDesc] using hsorted
  · intro p hp q hq hhp hhq hrank
    obtain ⟨i, hi, rfl⟩ := rankProjects_elem l hp
    obtain ⟨j, hj, rfl⟩ := rankProjects_elem l hq
    rw [rank_preserves_hasOpenrank] at hhp hhq
    have hiB : (dfWith l).length ≤ i := hBpos i hi hhp
    have hjB : (dfWith l).length ≤ j := hBpos j hj hhq
    have hij : i < j := by
      have : (i : Int) + 1 < (j : Int) + 1 := hrank
      omega
    have hiB2 : i - (dfWith l).length < (dfWithout l).length := by
      rw [List.length_append] at hi
      omega
    have hjB2 : j - (dfWith l).length < (dfWithout l).length := by
      rw [List.length_append] at hj
      omega
    have hsorted := (dfWithout_sorted l).rel_get_of_lt
      (show (⟨i - (dfWith l).length, hiB2⟩ : Fin (dfWithout l).length)
          < ⟨j - (dfWith l).length, hjB2⟩ from by
        simp only [Fin.mk_lt_mk]
        omega)
    show ((dfWith l ++ dfWithout l)[j]).total_stars
        ≤ ((dfWith l ++ dfWithout l)[i]).total_stars
    rw [List.getElem_append_right hiB, List.getElem_append_right hjB]
    simpa [List.get_eq_getElem, starsDesc] using hsorted
  · intro p hp q hq hhp hhq
    obtain ⟨i, hi, rfl⟩ := rankProjects_elem l hp
    obtain ⟨j, hj, rfl⟩ := rankProjects_elem l hq
    rw [rank_preserves_hasOpenrank] at hhp hhq
    have hiA : i < (dfWith l).length := hApos i hi hhp
    have hjB : (dfWith l).length ≤ j := hBpos j hj hhq
    show (i : Int) + 1 < (j : Int) + 1
    omega

theorem ranking_witness :
    ((rankProjects [⟨0, "a", "p", "a/p", 3, 0, 0, 0, "s"⟩,
        ⟨0, "b", "q", "b/q", 1, 0, 0, 2, "s"⟩]).map ExtRecord.rank
      = (List.range 2).map (fun (i : Nat) => (i : Int) + 1))
  ∧ (⟨1, "b", "q", "b/q", 1, 0, 0, 2, "s"⟩ : ExtRecord).rank
      < (⟨2, "a", "p", "a/p", 3, 0, 0, 0, "s"⟩ : ExtRecord).rank :=
  ⟨(ranking_partitions_and_ranks
      [⟨0, "a", "p", "a/p", 3, 0, 0, 0, "s"⟩, ⟨0, "b", "q", "b/q", 1, 0, 0, 2, "s"⟩]).1,
   (ranking_partitions_and_ranks
      [⟨0, "a", "p", "a/p", 3, 0, 0, 0, "s"⟩, ⟨0, "b", "q", "b/q", 1, 0, 0, 2, "s"⟩]).2.2.2.2
     ⟨1, "b", "q", "b/q", 1, 0, 0, 2, "s"⟩ (by decide)
     ⟨2, "a", "p", "a/p", 3, 0, 0, 0, "s"⟩ (by decide)
     (by decide) (by decide)⟩

end OpenSoda
